import Mathlib

/-!
Verification development for the data-forge repository: the Delta (Z-set)
algebra, the incremental-evaluation contract, the reversible-operation
executor, and the world/registry functions of the TypeScript implementation
file.  Definitions in the world/registry, event and mutation parts are
translated directly from the implementation file; the Delta model, the
incremental evaluator and the reversible executor are described by the
design document but have no implementation in the repository sources, so
they are modelled from the spec and marked as such in their doc comments.
-/

/-- Modelled from the spec: the Delta model (spec sections 3 and 4.1) is
described by the design document but has no implementation in the repository
sources.  `Delta K` is a finite signed multiset (Z-set): a finite mapping
from keys of type `K` to signed integer weights, with the invariant that
zero-weight keys are never materialized ("is present" means weight is
nonzero). -/
structure Delta (K : Type) where
  support : Finset K
  w : K → Int
  mem_iff : ∀ k, k ∈ support ↔ w k ≠ 0

/-- Modelled from the spec: `combine(d1, d2)` is pointwise addition of
weights over the union of keys, with zero-weight keys removed
(spec section 4.1). -/
def combine {K : Type} [DecidableEq K] (a b : Delta K) : Delta K where
  support := (a.support ∪ b.support).filter (fun k => a.w k + b.w k ≠ 0)
  w := fun k => a.w k + b.w k
  mem_iff := by
    intro k
    simp only [Finset.mem_filter, Finset.mem_union, a.mem_iff, b.mem_iff]
    constructor
    · exact fun h => h.2
    · intro h
      refine ⟨?_, h⟩
      by_contra hc
      push_neg at hc
      rw [hc.1, hc.2] at h
      exact h rfl

/-- Modelled from the spec: `negate(d)` flips the sign of every weight
(spec section 4.1). -/
def negate {K : Type} (a : Delta K) : Delta K where
  support := a.support
  w := fun k => -a.w k
  mem_iff := by
    intro k
    rw [a.mem_iff]
    simp only [ne_eq, neg_eq_zero]

/-- Modelled from the spec: the empty delta, the unit of `combine`. -/
def emptyDelta (K : Type) : Delta K where
  support := ∅
  w := fun _ => 0
  mem_iff := by intro k; simp

/-- Modelled from the spec: `isEmpty(d)` is true iff no key has nonzero
weight (spec section 4.1). -/
def isEmpty {K : Type} (d : Delta K) : Bool :=
  d.support.card = 0

/-- Modelled from the spec: the delta of one invocation that produced the
identity `k`, weight `n` (spec section 4.5: weight +1 keyed by the produced
identity). -/
def singletonDelta {K : Type} [DecidableEq K] (k : K) (n : Int) : Delta K where
  support := if n = 0 then ∅ else {k}
  w := fun x => if x = k then n else 0
  mem_iff := by
    intro x
    by_cases hn : n = 0
    · simp [hn]
    · simp only [hn, if_false, Finset.mem_singleton]
      constructor
      · intro hx
        subst hx
        simp [hn]
      · intro hx
        by_contra hc
        simp [hc] at hx

/-- Modelled from the spec: the incremental rule for a producer operation
marked pure and deterministic (spec section 4.4, step 2, first case) applies
the operation function to the delta's signed keys, carrying each weight
across unchanged; weights of input keys that map to the same output key
accumulate.  `mapDelta f d` is that rule for a single node computing `f`. -/
def mapDelta {K : Type} [DecidableEq K] (f : K → K) (d : Delta K) : Delta K where
  support :=
    (d.support.image f).filter
      (fun y => (d.support.filter (fun x => f x = y)).sum d.w ≠ 0)
  w := fun y => (d.support.filter (fun x => f x = y)).sum d.w
  mem_iff := by
    intro y
    simp only [Finset.mem_filter, Finset.mem_image]
    constructor
    · exact fun h => h.2
    · intro h
      refine ⟨?_, h⟩
      by_contra hc
      push_neg at hc
      have hempty : d.support.filter (fun x => f x = y) = ∅ := by
        apply Finset.filter_eq_empty_iff.mpr
        intro x hx
        exact hc x hx
      rw [hempty] at h
      exact h Finset.sum_empty

/-- Modelled from the spec: the associative and commutative numeric
aggregation the spec uses as its correctness oracle example (section 8,
`sum(price)`): the sum of a Z-set of numbers, each key weighted by its
signed multiplicity. -/
def sumDelta (d : Delta Int) : Int :=
  d.support.sum (fun k => k * d.w k)

/-- Modelled from the spec: one node of the Operation Graph (spec section 3,
OperationGraphNode), classified by its declared algebraic properties the way
the evaluator classifies nodes in section 4.4 step 2:
  - `root i`: a graph input (root) with identity `i`;
  - `producer f n`: a single-input producer marked pure and deterministic
    (step 2, first case), computing `f` per row;
  - `aggregate n`: numeric aggregation, associative and commutative (step 2,
    second case), keeping its output total materialized;
  - `union n1 n2`: set union (the other step-2 second-case example), a node
    with two input slots whose incoming deltas are gathered per step 1;
  - `fallback g n`: an operation lacking `deterministic` or `pure` (step 2,
    third case), evaluated only by full recompute from its input snapshot.
A node of a graph is the subgraph that feeds it, so quantifying over
`OpGraphNode` quantifies over every node of every operation graph. -/
inductive OpGraphNode where
  | root : Nat → OpGraphNode
  | producer : (Int → Int) → OpGraphNode → OpGraphNode
  | aggregate : OpGraphNode → OpGraphNode
  | union : OpGraphNode → OpGraphNode → OpGraphNode
  | fallback : (Delta Int → Delta Int) → OpGraphNode → OpGraphNode

/-- Modelled from the spec: full recompute of a node's output from the root
snapshots `base` (spec section 4.4): a root yields its snapshot, a producer
maps its operation over its full input, an aggregation materializes its
single total keyed with weight +1, a union combines its two slots, and a
fallback node applies its uninterpreted operation to its full input
snapshot. -/
def fullEval (base : Nat → Delta Int) : OpGraphNode → Delta Int
  | .root i => base i
  | .producer f n => mapDelta f (fullEval base n)
  | .aggregate n => singletonDelta (sumDelta (fullEval base n)) 1
  | .union n1 n2 => combine (fullEval base n1) (fullEval base n2)
  | .fallback g n => g (fullEval base n)

/-- Applying a root delta to the root snapshots: the delta lands at root
`r`, every other root keeps its snapshot. -/
def applyAt (base : Nat → Delta Int) (r : Nat) (d : Delta Int) : Nat → Delta Int :=
  fun i => if i = r then combine (base i) d else base i

/-- Modelled from the spec: the incremental evaluation path (spec section
4.4).  The delta arriving at root `r` is propagated node by node in
dependency order; per step 1, a slot fed from a root other than the
triggering one reports the empty delta for this pass.  Per step 2 the node's
declared properties choose the strategy: a pure deterministic producer
applies its operation to the delta's signed keys with unchanged weights; the
associative-commutative aggregation folds the operation over just the delta
entries and combines the result with its previously materialized output (the
old total, maintained equal to the full recompute over the current
snapshot), emitting the new total and retracting the old one; a union
combines the deltas gathered on its two input slots; an operation lacking
`deterministic` or `pure` falls back to a full recompute of its output from
its total input snapshot before and after the delta and reports the
difference between old and new output as its delta. -/
def incEval (base : Nat → Delta Int) (r : Nat) (d : Delta Int) : OpGraphNode → Delta Int
  | .root i => if i = r then d else emptyDelta Int
  | .producer f n => mapDelta f (incEval base r d n)
  | .aggregate n =>
      combine
        (singletonDelta (sumDelta (fullEval base n) + sumDelta (incEval base r d n)) 1)
        (negate (singletonDelta (sumDelta (fullEval base n)) 1))
  | .union n1 n2 => combine (incEval base r d n1) (incEval base r d n2)
  | .fallback g n =>
      combine (g (fullEval (applyAt base r d) n)) (negate (g (fullEval base n)))

/-- Runtime values of the implementation's primitive kinds (string, number,
boolean); numbers are modelled as integers. -/
inductive Value where
  | str : String → Value
  | int : Int → Value
  | bool : Bool → Value
deriving DecidableEq

/-- The `PrimitiveType` union of the implementation file. -/
inductive PrimitiveType where
  | string : PrimitiveType
  | number : PrimitiveType
  | boolean : PrimitiveType
  | date : PrimitiveType
  | any : PrimitiveType
deriving DecidableEq

/-- The `ExecutionLocation` union of the implementation file. -/
inductive ExecutionLocation where
  | client : ExecutionLocation
  | server : ExecutionLocation
  | database : ExecutionLocation
deriving DecidableEq

/-- A string-keyed record, modelling the TypeScript `Record<string, X>`
objects used throughout the implementation file.  Entries are kept in
insertion order, as JavaScript objects do. -/
abbrev StrMap (α : Type) : Type := List (String × α)

/-- Lookup of a key, modelling JavaScript property access. -/
def StrMap.get {α : Type} (m : StrMap α) (k : String) : Option α :=
  match m with
  | [] => none
  | (k0, v0) :: rest => if k0 = k then some v0 else StrMap.get rest k

/-- Key update, modelling JavaScript property assignment and the spread
pattern with a computed key: an existing key keeps its position and gets the
new value, a new key is appended. -/
def StrMap.set {α : Type} (m : StrMap α) (k : String) (v : α) : StrMap α :=
  match m with
  | [] => [(k, v)]
  | (k0, v0) :: rest =>
      if k0 = k then (k0, v) :: rest else (k0, v0) :: StrMap.set rest k v

/-- The `TraitImplementation` type of the implementation file: the result of
instantiating a trait, an optional validation function and error message. -/
structure TraitImplementation where
  validation : Option (Value → Bool)
  errorMessage : Option String

/-- The `TraitDefinition` type of the implementation file: a named trait,
the primitive types it applies to, its optional required parameter names,
and an implementation function from supplied parameters. -/
structure TraitDefinition where
  name : String
  appliesTo : List PrimitiveType
  parameters : Option (List String)
  implementation : StrMap Value → TraitImplementation

/-- The `TraitInstance` type of the implementation file. -/
structure TraitInstance where
  definition : TraitDefinition
  parameters : StrMap Value
  implementation : TraitImplementation

/-- The `Cell` type of the implementation file (the `__type` phantom field
exists only at the TypeScript type level and carries no runtime data). -/
structure Cell where
  name : String
  primitiveType : PrimitiveType
  version : Nat
  validation : Option (Value → Bool)
  errorMessage : Option String
  traits : StrMap TraitInstance

/-- The `Column` type of the implementation file. -/
structure Column where
  name : String
  cell : Cell
  constraints : List String
  type : Option String
  primaryKey : Option Bool

/-- The `Row` type of the implementation file. -/
structure Row where
  name : String
  version : Nat
  columns : StrMap Column
  storageLocation : Option String

/-- The `PropertyTransforms` type of the implementation file. -/
structure PropertyTransforms where
  fromColumn : Option (Value → Value)
  toColumn : Option (Value → Value)

/-- The `Property` type of the implementation file. -/
structure Property where
  column : Column
  transforms : Option PropertyTransforms
  validation : Option (Value → Bool)
  errorMessage : Option String

/-- One entry of an entity's property map: either a `Property` or a plain
key alias (`Property<any, T[K]> | keyof T` in the implementation file). -/
inductive EntityProp where
  | prop : Property → EntityProp
  | key : String → EntityProp

/-- The `Entity` type of the implementation file. -/
structure Entity where
  row : Row
  properties : StrMap EntityProp
  methods : Option (StrMap (List Value → Value))

/-- The operation `type` union of the implementation file. -/
inductive OpKind where
  | producer : OpKind
  | mutator : OpKind
  | filter : OpKind
deriving DecidableEq

/-- The `reversableWith` field of the implementation file's `Operation`. -/
structure ReversableWith where
  operation : String
  inputs : List String
deriving DecidableEq

/-- The `OperationProperties` type of the implementation file: declared
algebraic properties, all optional. -/
structure OperationProperties where
  associative : Option Bool
  commutative : Option Bool
  idempotent : Option Bool
  deterministic : Option Bool
  pure : Option Bool
  conflictFree : Option Bool
  locations : Option (List ExecutionLocation)
deriving DecidableEq

/-- The `Operation` type of the implementation file: a named, versioned
computation with typed input cells, one output cell, the computation
function, declared algebraic properties, and an optional inverse
reference. -/
structure Operation where
  name : String
  version : Nat
  type : Option OpKind
  inputs : List Cell
  output : Cell
  operation : List Value → Value
  properties : OperationProperties
  reversableWith : Option ReversableWith
  databaseImplementation : Option (StrMap (List Value → Value))

/-- The `StorageLocation` type of the implementation file. -/
structure StorageLocation where
  type : String
  connection : String
  name : Option String
deriving DecidableEq

/-- The `World` type of the implementation file: the central container
holding storage locations and the catalogs of traits, cells, columns, rows,
properties, entities and operations. -/
structure World where
  storageLocations : List StorageLocation
  traits : StrMap TraitDefinition
  cells : StrMap Cell
  columns : StrMap Column
  rows : StrMap Row
  properties : StrMap Property
  entities : StrMap Entity
  operations : StrMap Operation

/-- Errors thrown by the implementation file's registry functions, together
with the registration errors named by the spec (section 4.2): the spec's
`DuplicateOperationError` appears here so that statements about it can be
made, even though no code path raises it. -/
inductive DFError where
  | traitNotFound : String → DFError
  | traitNotApplicable : String → PrimitiveType → DFError
  | missingParameter : String → String → DFError
  | missingParameters : String → DFError
  | duplicateOperation : String → Nat → DFError
deriving DecidableEq

/-- The `createWorld` function of the implementation file: builds a world
with empty catalogs and registers the initial traits, if provided, by
mutating the trait catalog in order. -/
def createWorld (storageLocations : List StorageLocation)
    (traits : Option (List TraitDefinition)) : World :=
  let world : World :=
    { storageLocations := storageLocations
      traits := []
      cells := []
      columns := []
      rows := []
      properties := []
      entities := []
      operations := [] }
  match traits with
  | none => world
  | some ts =>
      { world with traits := ts.foldl (fun acc t => acc.set t.name t) world.traits }

/-- The `defineTrait` function of the implementation file: returns a new
world whose trait catalog is extended with the definition. -/
def defineTrait (world : World) (definition : TraitDefinition) : World :=
  { world with traits := world.traits.set definition.name definition }

/-- The parameter validation block of the implementation file's `applyTrait`
(lines 212 to 226): when the trait declares parameters, every required
parameter must be present among the supplied ones (the first missing one is
reported); when no parameters are supplied at all, the call fails whenever
the set of required parameters is nonempty. -/
def checkTraitParams (trait : TraitDefinition)
    (parameters : Option (StrMap Value)) : Option DFError :=
  match trait.parameters with
  | none => none
  | some ps =>
    match parameters with
    | some given =>
      match ps.find? (fun p => (given.get p).isNone) with
      | some p => some (.missingParameter p trait.name)
      | none => none
    | none => if ps.isEmpty then none else some (.missingParameters trait.name)

/-- The `applyTrait` function of the implementation file (lines 196 to 242):
looks the trait up in the world, checks applicability to the cell's
primitive type, validates parameters, instantiates the implementation and
returns a new cell built by object spread — the input cell object is left
untouched — whose trait map is the input cell's extended with the new trait
instance.  Thrown `Error`s are modelled as `Except.error`. -/
def applyTrait (world : World) (cell : Cell) (traitName : String)
    (parameters : Option (StrMap Value)) : Except DFError Cell :=
  match world.traits.get traitName with
  | none => .error (.traitNotFound traitName)
  | some trait =>
    if cell.primitiveType ∈ trait.appliesTo then
      match checkTraitParams trait parameters with
      | some e => .error e
      | none =>
        let implementation := trait.implementation (parameters.getD [])
        .ok { cell with
                traits := cell.traits.set traitName
                  ⟨trait, parameters.getD [], implementation⟩ }
    else .error (.traitNotApplicable traitName cell.primitiveType)

/-- The `createOperation` function of the implementation file (lines 523 to
546).  The source builds `updatedWorld`, a copy of the world whose operation
catalog is extended with the definition, but discards it and returns only
the operation; since object spread never mutates `world`, the world object
the caller holds after the call is the unchanged `world`.  The returned pair
is the operation together with that caller-visible world.  The source
contains no throw, so the result is always `Except.ok`. -/
def createOperation (world : World) (definition : Operation) :
    Except DFError (Operation × World) :=
  let operation := definition
  let updatedWorld : World :=
    { world with operations := world.operations.set definition.name operation }
  .ok (operation, world)

/-- Modelled from the spec: a registered operation descriptor as the
Reversible Executor sees it (spec section 4.5).  The repository implements
no executor, so this is the spec's descriptor specialised to single-input
integer operations; the inverse spec is the name of another registered
descriptor, its single input slot fed from the forward output. -/
structure OpDesc where
  name : String
  version : Nat
  op : Int → Int
  reversableWith : Option String

/-- Modelled from the spec: executor errors of spec sections 4.5 and 7. -/
inductive ExecError where
  | notReversible : ExecError
  | unknownInverse : String → ExecError
  | inverseInconsistency : ExecError
deriving DecidableEq

/-- Modelled from the spec: `invoke(descriptor, input)` executes the forward
operation and produces both the plain output and the Delta of that one
invocation, weight +1 keyed by the produced identity (spec section 4.5). -/
def invoke (d : OpDesc) (x : Int) : Int × Delta Int :=
  let y := d.op x
  (y, singletonDelta y 1)

/-- Modelled from the spec: `undo(committedDelta, descriptor)` (spec
section 4.5).  Fails with `notReversible` when the descriptor carries no
inverse spec; otherwise resolves the inverse by name in the catalog, failing
with `unknownInverse` when it is not registered; invokes the inverse on each
committed identity and checks the inverse's result for consistency — the
restored pre-images must reproduce the committed identities under the
forward operation, otherwise the descriptor pair is broken and
`inverseInconsistency` is surfaced; on success returns
`negate(committedDelta)`. -/
def undo (committedDelta : Delta Int) (d : OpDesc) (catalog : StrMap OpDesc) :
    Except ExecError (Delta Int) :=
  match d.reversableWith with
  | none => .error .notReversible
  | some invName =>
    match catalog.get invName with
    | none => .error (.unknownInverse invName)
    | some inv =>
      if ∀ y ∈ committedDelta.support, d.op (inv.op y) = y then
        .ok (negate committedDelta)
      else
        .error .inverseInconsistency

/-- Delivery logs of the event system built by the implementation file's
`on` function: for each handler (identified by a number) the list of
argument tuples it has received, oldest first. -/
def HandlerLog : Type := Nat → List (List Value)

/-- One handler call inside the `forEach` loop of `on`'s operation function
(lines 561 to 567): the handler receives the invocation's arguments — the
delivery is recorded — and whether it returns or throws, the `try`/`catch`
around the call swallows the exception and the loop continues the same
way. -/
def handlerCall (behavior : Nat → List Value → Except String Unit) (h : Nat)
    (args : List Value) (lg : HandlerLog) : HandlerLog :=
  match behavior h args with
  | .ok _ => fun k => if k = h then lg k ++ [args] else lg k
  | .error _ => fun k => if k = h then lg k ++ [args] else lg k

/-- The `subscribers.forEach` loop of the implementation file's `on`:
notifies every current subscriber in subscription order. -/
def notifyAll (subs : List Nat)
    (behavior : Nat → List Value → Except String Unit) (args : List Value)
    (log : HandlerLog) : HandlerLog :=
  subs.foldl (fun lg h => handlerCall behavior h args lg) log

/-- The operation function returned by the implementation file's `on`
(lines 554 to 570): applies the underlying operation to the arguments,
notifies every subscriber (their exceptions caught), and returns the
result. -/
def operationFn (operation : Operation) (subs : List Nat)
    (behavior : Nat → List Value → Except String Unit) (args : List Value)
    (log : HandlerLog) : Value × HandlerLog :=
  let result := operation.operation args
  let log2 := notifyAll subs behavior args log
  (result, log2)

/-- The subscribe closure returned by the implementation file's `on`:
pushes the handler onto the subscriber array. -/
def subscribe (subs : List Nat) (h : Nat) : List Nat :=
  subs ++ [h]

/-- The unsubscribe closure returned by the implementation file's `on`:
`indexOf` followed by `splice`, i.e. removal of the first occurrence (a
no-op when the handler is no longer present). -/
def unsubscribe (subs : List Nat) (h : Nat) : List Nat :=
  subs.erase h

/-- A sequence of invocations of the wired operation function with a fixed
subscriber list, threading the delivery log. -/
def runInvocations (operation : Operation) (subs : List Nat)
    (behavior : Nat → List Value → Except String Unit)
    (argsList : List (List Value)) (log : HandlerLog) : HandlerLog :=
  argsList.foldl (fun lg args => (operationFn operation subs behavior args lg).2) log

/-- The `Change` type of the implementation file: one recorded property
assignment with its path, previous value (absent when the property did not
exist) and new value. -/
structure Change where
  path : List String
  oldValue : Option Value
  newValue : Value
deriving DecidableEq

/-- The `set` trap of the implementation file's `createDraftHandler`
(lines 702 to 718), for top-level properties of a flat draft: a change is
recorded only when the written value differs from the value already present
under JavaScript's strict inequality, and the value is then assigned to the
draft's target. -/
def draftSet (st : StrMap Value × List Change) (prop : String) (value : Value) :
    StrMap Value × List Change :=
  let oldValue := st.1.get prop
  let changes :=
    if oldValue = some value then st.2
    else st.2 ++ [⟨[prop], oldValue, value⟩]
  (st.1.set prop value, changes)

/-- The observable outcome of the implementation file's `mutate`: the value
the caller gets back, whether `entity.save()` was invoked, and which object
was returned — the original entity instance or the draft copy. -/
structure MutateResult where
  value : StrMap Value
  saveCalled : Bool
  returnedOriginal : Bool
deriving DecidableEq

/-- The `mutate` function of the implementation file (lines 723 to 763),
for a mutator that is a straight-line sequence of top-level property
assignments: a draft copy of the entity is mutated under change tracking;
when no changes were recorded, the original entity instance itself is
returned and `entity.save()` is not invoked; otherwise the changes are
logged, `entity.save()` is awaited and the draft is returned. -/
def mutate (entity : StrMap Value) (script : List (String × Value)) : MutateResult :=
  let st := script.foldl (fun acc pv => draftSet acc pv.1 pv.2) (entity, [])
  if st.2.isEmpty then
    { value := entity, saveCalled := false, returnedOriginal := true }
  else
    { value := st.1, saveCalled := true, returnedOriginal := false }

/-- The requirement that every declared trait parameter is supplied: each
name in the trait's parameter list is present among the given parameters
(when none are given, the requirement holds only for an empty parameter
list). -/
def paramsSupplied (req : Option (List String)) (given : Option (StrMap Value)) : Prop :=
  ∀ p ∈ req.getD [], ((given.getD []).get p).isSome = true

/-- A plain number cell, used as input and output of the demo operations. -/
def numberCell : Cell where
  name := "number"
  primitiveType := .number
  version := 1
  validation := none
  errorMessage := none
  traits := []

/-- Declared properties of the demo operation. -/
def demoProps : OperationProperties where
  associative := some true
  commutative := none
  idempotent := none
  deterministic := some true
  pure := some true
  conflictFree := none
  locations := none

/-- A concrete operation descriptor in the implementation file's format,
mirroring the README's `add` example. -/
def addOp : Operation where
  name := "add"
  version := 1
  type := some .producer
  inputs := [numberCell, numberCell]
  output := numberCell
  operation := fun args =>
    match args with
    | [Value.int a, Value.int b] => Value.int (a + b)
    | _ => Value.int 0
  properties := demoProps
  reversableWith := some ⟨"subtract", ["output", "input[1]"]⟩
  databaseImplementation := none

/-- A second descriptor with the same name and version as `addOp` but
different declared properties. -/
def addOpAgain : Operation :=
  { addOp with properties := { demoProps with commutative := some true } }

/-- A world with one storage location and empty catalogs. -/
def demoWorld : World :=
  createWorld [⟨"database", "sqlite", none⟩] none

/-- A world whose operation catalog already contains `addOp` under its
name. -/
def dupWorld : World :=
  { demoWorld with operations := [("add", addOp)] }

/-- Modelled from the spec: the forward operation of the executor demo,
adding three. -/
def add3Desc : OpDesc where
  name := "add3"
  version := 1
  op := fun v => v + 3
  reversableWith := some "sub3"

/-- Modelled from the spec: the inverse of `add3Desc`, subtracting three. -/
def sub3Desc : OpDesc where
  name := "sub3"
  version := 1
  op := fun v => v - 3
  reversableWith := some "add3"

/-- The executor catalog holding both demo descriptors. -/
def execCatalog : StrMap OpDesc :=
  [("add3", add3Desc), ("sub3", sub3Desc)]

/-- A parameterless trait that applies to strings, numbers and booleans,
mirroring the README's `required` trait. -/
def requiredTrait : TraitDefinition where
  name := "required"
  appliesTo := [.string, .number, .boolean]
  parameters := none
  implementation := fun _ =>
    { validation := some (fun _ => true)
      errorMessage := some "This field is required" }

/-- A world whose trait catalog holds `requiredTrait`. -/
def demoTraitWorld : World :=
  createWorld [] (some [requiredTrait])

/-- A plain string cell with no traits applied yet. -/
def demoCell : Cell where
  name := "name"
  primitiveType := .string
  version := 1
  validation := none
  errorMessage := none
  traits := []

/-- A handler behavior where handler 1 throws and every other handler
returns normally. -/
def demoBehavior : Nat → List Value → Except String Unit :=
  fun h _ => if h = 1 then .error "boom" else .ok ()

/-- The empty delivery log. -/
def emptyLog : HandlerLog := fun _ => []

/-- A flat entity instance used by the mutation demo. -/
def demoEntity : StrMap Value :=
  [("name", Value.str "Ada"), ("age", Value.int 36)]

/-- Two deltas with the same weight function are equal: the support is
determined by the weights through the zero-weight invariant. -/
theorem Delta.w_ext {K : Type} {a b : Delta K} (h : a.w = b.w) : a = b := by
  obtain ⟨sa, wa, ha⟩ := a
  obtain ⟨sb, wb, hb⟩ := b
  simp only at h
  subst h
  have hs : sa = sb := Finset.ext (fun k => by rw [ha, hb])
  subst hs
  rfl

theorem combine_assoc {K : Type} [DecidableEq K] (a b c : Delta K) :
    combine (combine a b) c = combine a (combine b c) := by
  apply Delta.w_ext
  funext k
  show a.w k + b.w k + c.w k = a.w k + (b.w k + c.w k)
  ring

theorem combine_comm {K : Type} [DecidableEq K] (a b : Delta K) :
    combine a b = combine b a := by
  apply Delta.w_ext
  funext k
  show a.w k + b.w k = b.w k + a.w k
  ring

theorem combine_negate_self {K : Type} [DecidableEq K] (d : Delta K) :
    combine d (negate d) = emptyDelta K := by
  apply Delta.w_ext
  funext k
  show d.w k + -d.w k = 0
  ring

theorem combine_cancel_left {K : Type} [DecidableEq K] (a b : Delta K) :
    combine (combine a b) (negate a) = b := by
  apply Delta.w_ext
  funext k
  show a.w k + b.w k + -a.w k = b.w k
  ring

/-- Summing a delta's weights over the fibre of `y` inside any superset of
its support gives the same value as summing over the support itself: keys
outside the support carry weight zero. -/
theorem sum_fibre_subset {K : Type} [DecidableEq K] (d : Delta K) (f : K → K)
    (y : K) {s : Finset K} (hs : d.support ⊆ s) :
    (s.filter (fun x => f x = y)).sum d.w
      = (d.support.filter (fun x => f x = y)).sum d.w := by
  refine (Finset.sum_subset (Finset.filter_subset_filter _ hs) ?_).symm
  intro x hx hnx
  rcases Finset.mem_filter.mp hx with ⟨_, hfy⟩
  by_contra hw
  exact hnx (Finset.mem_filter.mpr ⟨(d.mem_iff x).mpr hw, hfy⟩)

/-- The incremental rule for one producer node is additive over `combine`:
pushing a combined delta through the node equals combining the results of
pushing each delta separately. -/
theorem mapDelta_combine {K : Type} [DecidableEq K] (f : K → K) (a b : Delta K) :
    mapDelta f (combine a b) = combine (mapDelta f a) (mapDelta f b) := by
  apply Delta.w_ext
  funext y
  show ((combine a b).support.filter (fun x => f x = y)).sum (combine a b).w
      = (a.support.filter (fun x => f x = y)).sum a.w
        + (b.support.filter (fun x => f x = y)).sum b.w
  have hsub : (combine a b).support ⊆ a.support ∪ b.support :=
    Finset.filter_subset _ _
  rw [sum_fibre_subset (combine a b) f y
        (s := a.support ∪ b.support) hsub |>.symm]
  rw [← sum_fibre_subset a f y (s := a.support ∪ b.support)
        Finset.subset_union_left]
  rw [← sum_fibre_subset b f y (s := a.support ∪ b.support)
        Finset.subset_union_right]
  have : ∀ x ∈ (a.support ∪ b.support).filter (fun x => f x = y),
      (combine a b).w x = a.w x + b.w x := fun x _ => rfl
  rw [Finset.sum_congr rfl this, Finset.sum_add_distrib]

/-- The incremental producer rule commutes with negation: pushing a negated
delta through a node negates the pushed delta. -/
theorem mapDelta_negate {K : Type} [DecidableEq K] (f : K → K) (a : Delta K) :
    mapDelta f (negate a) = negate (mapDelta f a) := by
  apply Delta.w_ext
  funext y
  show (a.support.filter (fun x => f x = y)).sum (fun x => -a.w x)
      = -((a.support.filter (fun x => f x = y)).sum a.w)
  rw [Finset.sum_neg_distrib]

/-- Summing the weighted keys of a delta over any superset of its support
gives `sumDelta`: keys outside the support carry weight zero. -/
theorem sumDelta_superset (d : Delta Int) {s : Finset Int} (hs : d.support ⊆ s) :
    s.sum (fun k => k * d.w k) = sumDelta d := by
  refine (Finset.sum_subset hs ?_).symm
  intro x _ hx
  have hw : d.w x = 0 := by
    by_contra hc
    exact hx ((d.mem_iff x).mpr hc)
  rw [hw, mul_zero]

/-- The aggregation is additive over `combine`: the sum of a combined delta
is the sum of the parts — the linearity that lets the evaluator fold the
operation over just the delta entries. -/
theorem sumDelta_combine (a b : Delta Int) :
    sumDelta (combine a b) = sumDelta a + sumDelta b := by
  have hsub : (combine a b).support ⊆ a.support ∪ b.support :=
    Finset.filter_subset _ _
  rw [← sumDelta_superset (combine a b) hsub]
  have hw : ∀ k ∈ a.support ∪ b.support,
      k * (combine a b).w k = k * a.w k + k * b.w k := by
    intro k _
    show k * (a.w k + b.w k) = k * a.w k + k * b.w k
    ring
  rw [Finset.sum_congr rfl hw, Finset.sum_add_distrib,
    sumDelta_superset a Finset.subset_union_left,
    sumDelta_superset b Finset.subset_union_right]

/-- The aggregation negates with the delta. -/
theorem sumDelta_negate (a : Delta Int) :
    sumDelta (negate a) = -(sumDelta a) := by
  show a.support.sum (fun k => k * -a.w k) = -(a.support.sum fun k => k * a.w k)
  rw [← Finset.sum_neg_distrib]
  apply Finset.sum_congr rfl
  intro k _
  ring

/-- Merging two differences in the delta group: the combination of two
before/after differences is the difference of the combinations. -/
theorem combine_difference_merge {K : Type} [DecidableEq K] (A A2 B B2 : Delta K) :
    combine (combine A2 (negate A)) (combine B2 (negate B))
      = combine (combine A2 B2) (negate (combine A B)) := by
  apply Delta.w_ext
  funext k
  show (A2.w k + -A.w k) + (B2.w k + -B.w k) = (A2.w k + B2.w k) + -(A.w k + B.w k)
  ring

theorem StrMap.set_get_self {α : Type} (m : StrMap α) (k : String) (v : α)
    (h : StrMap.get m k = some v) : StrMap.set m k v = m := by
  induction m with
  | nil => simp [StrMap.get] at h
  | cons hd rest ih =>
    by_cases hk : hd.1 = k
    · obtain ⟨k0, v0⟩ := hd
      simp only at hk
      subst hk
      simp [StrMap.get] at h
      simp [StrMap.set, h]
    · obtain ⟨k0, v0⟩ := hd
      simp only at hk
      simp only [StrMap.get, hk, if_neg hk] at h
      simp [StrMap.set, hk, ih h]

theorem handlerCall_apply (behavior : Nat → List Value → Except String Unit)
    (h : Nat) (args : List Value) (lg : HandlerLog) :
    handlerCall behavior h args lg = fun k => if k = h then lg k ++ [args] else lg k := by
  unfold handlerCall
  cases behavior h args <;> rfl

theorem notifyAll_not_mem (behavior : Nat → List Value → Except String Unit)
    (args : List Value) :
    ∀ (subs : List Nat) (log : HandlerLog) (h : Nat), h ∉ subs →
      notifyAll subs behavior args log h = log h := by
  intro subs
  induction subs with
  | nil => intro log h _; rfl
  | cons hd rest ih =>
    intro log h hh
    have hne : h ≠ hd := fun e => hh (by rw [e]; exact List.mem_cons_self hd rest)
    have hrest : h ∉ rest := fun m => hh (List.mem_cons_of_mem hd m)
    show notifyAll rest behavior args (handlerCall behavior hd args log) h = log h
    rw [ih _ h hrest, handlerCall_apply]
    simp [hne]

theorem notifyAll_mem (behavior : Nat → List Value → Except String Unit)
    (args : List Value) :
    ∀ (subs : List Nat) (log : HandlerLog) (h : Nat), subs.Nodup → h ∈ subs →
      notifyAll subs behavior args log h = log h ++ [args] := by
  intro subs
  induction subs with
  | nil => intro log h _ hm; cases hm
  | cons hd rest ih =>
    intro log h hnd hm
    rw [List.nodup_cons] at hnd
    show notifyAll rest behavior args (handlerCall behavior hd args log) h
        = log h ++ [args]
    by_cases he : h = hd
    · subst he
      rw [notifyAll_not_mem behavior args rest _ h hnd.1, handlerCall_apply]
      simp
    · have hm2 : h ∈ rest := by
        rcases List.mem_cons.mp hm with h1 | h2
        · exact absurd h1 he
        · exact h2
      rw [ih _ h hnd.2 hm2, handlerCall_apply]
      simp [he]

theorem checkTraitParams_none (trait : TraitDefinition)
    (parameters : Option (StrMap Value))
    (h : paramsSupplied trait.parameters parameters) :
    checkTraitParams trait parameters = none := by
  unfold checkTraitParams
  unfold paramsSupplied at h
  cases hp : trait.parameters with
  | none => rfl
  | some ps =>
    rw [hp] at h
    cases hg : parameters with
    | none =>
      rw [hg] at h
      cases ps with
      | nil => rfl
      | cons p rest =>
        exfalso
        have hmem := h p (List.mem_cons_self p rest)
        simp [StrMap.get] at hmem
    | some given =>
      rw [hg] at h
      have hfind : ps.find? (fun p => (StrMap.get given p).isNone) = none := by
        apply List.find?_eq_none.mpr
        intro p hpmem
        have hsup := h p hpmem
        simp only [Option.getD] at hsup
        cases hval : StrMap.get given p with
        | none => rw [hval] at hsup; simp at hsup
        | some v => simp [hval]
      simp only [hfind]

theorem draftSet_noop (entity : StrMap Value) (cs : List Change) (p : String)
    (v : Value) (h : entity.get p = some v) :
    draftSet (entity, cs) p v = (entity, cs) := by
  unfold draftSet
  simp [h, StrMap.set_get_self entity p v h]

theorem mutate_foldl_noop (entity : StrMap Value) :
    ∀ (script : List (String × Value)) (cs : List Change),
      (∀ pv ∈ script, entity.get pv.1 = some pv.2) →
      List.foldl (fun acc pv => draftSet acc pv.1 pv.2) (entity, cs) script
        = (entity, cs) := by
  intro script
  induction script with
  | nil => intro cs _; rfl
  | cons pv rest ih =>
    intro cs h
    show List.foldl (fun acc q => draftSet acc q.1 q.2)
        (draftSet (entity, cs) pv.1 pv.2) rest = (entity, cs)
    rw [draftSet_noop entity cs pv.1 pv.2 (h pv (List.mem_cons_self pv rest))]
    exact ih cs (fun q hq => h q (List.mem_cons_of_mem pv hq))

/-- C1: for every node in the operation graph — roots, pure deterministic
producers, the associative-commutative aggregation with materialized output
(the spec's own sum oracle example), two-slot unions with per-slot delta
gathering, and recompute-only fallback nodes — and for every root delta, the
output delta produced by the incremental evaluation path equals the
difference between two full recomputes of that node's output taken before
and after applying the same root delta. -/
theorem incremental_matches_recompute_difference (base : Nat → Delta Int)
    (r : Nat) (d : Delta Int) (n : OpGraphNode) :
    incEval base r d n
      = combine (fullEval (applyAt base r d) n) (negate (fullEval base n)) := by
  induction n with
  | root i =>
    show (if i = r then d else emptyDelta Int)
        = combine (applyAt base r d i) (negate (base i))
    unfold applyAt
    by_cases hir : i = r
    · rw [if_pos hir, if_pos hir]
      exact (combine_cancel_left (base i) d).symm
    · rw [if_neg hir, if_neg hir]
      exact (combine_negate_self (base i)).symm
  | producer f n ih =>
    show mapDelta f (incEval base r d n)
        = combine (mapDelta f (fullEval (applyAt base r d) n))
            (negate (mapDelta f (fullEval base n)))
    rw [ih, mapDelta_combine, mapDelta_negate]
  | aggregate n ih =>
    show combine
        (singletonDelta (sumDelta (fullEval base n) + sumDelta (incEval base r d n)) 1)
        (negate (singletonDelta (sumDelta (fullEval base n)) 1))
      = combine (singletonDelta (sumDelta (fullEval (applyAt base r d) n)) 1)
          (negate (singletonDelta (sumDelta (fullEval base n)) 1))
    have ht : sumDelta (fullEval base n) + sumDelta (incEval base r d n)
        = sumDelta (fullEval (applyAt base r d) n) := by
      rw [ih, sumDelta_combine, sumDelta_negate]
      ring
    rw [ht]
  | union n1 n2 ih1 ih2 =>
    show combine (incEval base r d n1) (incEval base r d n2)
      = combine (combine (fullEval (applyAt base r d) n1) (fullEval (applyAt base r d) n2))
          (negate (combine (fullEval base n1) (fullEval base n2)))
    rw [ih1, ih2]
    exact combine_difference_merge _ _ _ _
  | fallback g n ih =>
    rfl

/-- C2: `combine` is associative and commutative, and it is pointwise
addition of weights over the union of the two key sets with zero-weight
keys removed. -/
theorem combine_monoid_laws {K : Type} [DecidableEq K] (a b c : Delta K) :
    combine (combine a b) c = combine a (combine b c) ∧
    combine a b = combine b a ∧
    (∀ k, (combine a b).w k = a.w k + b.w k) ∧
    (combine a b).support
      = (a.support ∪ b.support).filter (fun k => a.w k + b.w k ≠ 0) :=
  ⟨combine_assoc a b c, combine_comm a b, fun _ => rfl, rfl⟩

/-- C3: for every delta `d`, combining `d` with `negate d` — the delta with
every weight's sign flipped — yields the empty delta. -/
theorem combine_negate_is_empty {K : Type} [DecidableEq K] (d : Delta K) :
    combine d (negate d) = emptyDelta K ∧ ∀ k, (negate d).w k = -(d.w k) :=
  ⟨combine_negate_self d, fun _ => rfl⟩

/-- C4: contrary to the claim, registering a descriptor leaves the world's
operation catalog unchanged: `createOperation` computes the extended catalog
into `updatedWorld` but discards it, so after registering `addOp` into
`demoWorld` the caller's world still has no entry under "add". -/
theorem createOperation_leaves_catalog_unchanged :
    createOperation demoWorld addOp = Except.ok (addOp, demoWorld) ∧
    demoWorld.operations.get "add" = none :=
  ⟨rfl, rfl⟩

/-- C5 counterexample: `dupWorld`'s catalog already holds a descriptor with
name "add" and version 1, yet registering `addOpAgain` (also "add",
version 1) does not fail with `DuplicateOperationError`: it returns
normally. -/
theorem createOperation_duplicate_not_rejected :
    dupWorld.operations.get "add" = some addOp ∧
    addOp.version = addOpAgain.version ∧
    addOpAgain.name = "add" ∧
    createOperation dupWorld addOpAgain
      ≠ Except.error (DFError.duplicateOperation "add" 1) ∧
    createOperation dupWorld addOpAgain = Except.ok (addOpAgain, dupWorld) :=
  ⟨rfl, rfl, rfl, by simp [createOperation], rfl⟩

/-- C5 amended: registering a descriptor whose (name, version) is already
present in the catalog does not fail — `createOperation` performs no
duplicate check and returns the new descriptor normally, leaving the
caller's world unchanged. -/
theorem createOperation_duplicate_returns_ok (w : World) (d d0 : Operation)
    (hdup : w.operations.get d.name = some d0) (hver : d0.version = d.version) :
    createOperation w d = Except.ok (d, w) := rfl

theorem createOperation_duplicate_returns_ok_witness :
    createOperation dupWorld addOpAgain = Except.ok (addOpAgain, dupWorld) :=
  createOperation_duplicate_returns_ok dupWorld addOpAgain addOp rfl rfl

/-- C6: for a registered reversible operation `O` — one whose descriptor
names a registered inverse `I`, where `I` actually inverts `O` — undoing the
committed delta of any invocation yields exactly the negation of that
committed delta. -/
theorem undo_invoke_eq_negate (catalog : StrMap OpDesc) (O I : OpDesc) (x : Int)
    (hrev : O.reversableWith = some I.name)
    (hreg : catalog.get I.name = some I)
    (hinv : ∀ v : Int, I.op (O.op v) = v) :
    undo (invoke O x).2 O catalog = Except.ok (negate (invoke O x).2) := by
  have hcheck : ∀ y ∈ (invoke O x).2.support, O.op (I.op y) = y := by
    intro y hy
    have hyx : y = O.op x := by
      have hsupp : (invoke O x).2.support = {O.op x} := by
        show (singletonDelta (O.op x) 1).support = {O.op x}
        simp [singletonDelta]
      rw [hsupp] at hy
      exact Finset.mem_singleton.mp hy
    subst hyx
    rw [hinv x]
  unfold undo
  rw [hrev]
  simp only [hreg]
  rw [if_pos hcheck]

theorem undo_invoke_eq_negate_witness :
    undo (invoke add3Desc 5).2 add3Desc execCatalog
      = Except.ok (negate (invoke add3Desc 5).2) :=
  undo_invoke_eq_negate execCatalog add3Desc sub3Desc 5 rfl rfl
    (fun v => by show v + 3 - 3 = v; omega)

/-- C7: a handler that is subscribed for a whole sequence of invocations is
notified exactly once per invocation, in commit order: its delivery log is
extended by exactly the list of the invocations' argument tuples, oldest
first. -/
theorem subscriber_notified_once_per_invocation (operation : Operation)
    (subs : List Nat) (behavior : Nat → List Value → Except String Unit)
    (argsList : List (List Value)) (log : HandlerLog) (h : Nat)
    (hnd : subs.Nodup) (hm : h ∈ subs) :
    runInvocations operation subs behavior argsList log h = log h ++ argsList := by
  induction argsList generalizing log with
  | nil => show log h = log h ++ []; simp
  | cons args rest ih =>
    show runInvocations operation subs behavior rest
        (operationFn operation subs behavior args log).2 h = log h ++ args :: rest
    rw [ih]
    show notifyAll subs behavior args log h ++ rest = log h ++ args :: rest
    rw [notifyAll_mem behavior args subs log h hnd hm]
    simp

theorem subscriber_notified_once_per_invocation_witness :
    runInvocations addOp [0, 1] demoBehavior
        [[Value.int 1], [Value.int 2]] emptyLog 0
      = emptyLog 0 ++ [[Value.int 1], [Value.int 2]] :=
  subscriber_notified_once_per_invocation addOp [0, 1] demoBehavior
    [[Value.int 1], [Value.int 2]] emptyLog 0 (by decide) (by decide)

/-- C8: when some subscribed handler throws at an invocation, the exception
is caught: every subscribed handler is still notified for that invocation
and the operation function still returns the result of applying the
underlying operation to its arguments. -/
theorem handler_exception_caught (operation : Operation) (subs : List Nat)
    (behavior : Nat → List Value → Except String Unit) (args : List Value)
    (log : HandlerLog) (hnd : subs.Nodup)
    (hthrow : ∃ h0 ∈ subs, ∃ e, behavior h0 args = Except.error e) :
    (operationFn operation subs behavior args log).1 = operation.operation args ∧
    ∀ h ∈ subs, (operationFn operation subs behavior args log).2 h = log h ++ [args] := by
  refine ⟨rfl, ?_⟩
  intro h hm
  show notifyAll subs behavior args log h = log h ++ [args]
  exact notifyAll_mem behavior args subs log h hnd hm

theorem handler_exception_caught_witness :
    (operationFn addOp [0, 1] demoBehavior [Value.int 7] emptyLog).1
        = addOp.operation [Value.int 7] ∧
    (operationFn addOp [0, 1] demoBehavior [Value.int 7] emptyLog).2 0
        = emptyLog 0 ++ [[Value.int 7]] := by
  have hmain := handler_exception_caught addOp [0, 1] demoBehavior [Value.int 7]
    emptyLog (by decide) ⟨1, by decide, "boom", rfl⟩
  exact ⟨hmain.1, hmain.2 0 (by decide)⟩

/-- C9: applying a registered trait that is applicable to the cell's
primitive type, with its required parameters supplied, returns a new cell
whose trait map is the input cell's extended with the new trait instance;
all other fields are carried over unchanged from the input cell, which the
function never mutates (it builds the result by object spread). -/
theorem applyTrait_extends_traits (world : World) (cell : Cell)
    (traitName : String) (parameters : Option (StrMap Value))
    (trait : TraitDefinition)
    (hfound : world.traits.get traitName = some trait)
    (happ : cell.primitiveType ∈ trait.appliesTo)
    (hsup : paramsSupplied trait.parameters parameters) :
    applyTrait world cell traitName parameters =
      Except.ok { cell with
          traits := cell.traits.set traitName
            ⟨trait, parameters.getD [], trait.implementation (parameters.getD [])⟩ } := by
  unfold applyTrait
  rw [hfound]
  simp only [happ, if_true, checkTraitParams_none trait parameters hsup]

theorem applyTrait_extends_traits_witness :
    applyTrait demoTraitWorld demoCell "required" none =
      Except.ok { demoCell with
          traits := demoCell.traits.set "required"
            ⟨requiredTrait, [], requiredTrait.implementation []⟩ } :=
  applyTrait_extends_traits demoTraitWorld demoCell "required" none requiredTrait
    rfl (by decide) (fun p hp => absurd hp (List.not_mem_nil p))

/-- C10: a mutator that only writes values already present — every
assignment writes a value equal, under the strict inequality check of the
draft's set trap, to the value the property already has — records no
changes, so `mutate` returns the original entity instance itself and does
not invoke `entity.save()`. -/
theorem mutate_no_change_returns_original (entity : StrMap Value)
    (script : List (String × Value))
    (h : ∀ pv ∈ script, entity.get pv.1 = some pv.2) :
    mutate entity script =
      { value := entity, saveCalled := false, returnedOriginal := true } := by
  unfold mutate
  rw [mutate_foldl_noop entity script [] h]
  rfl

theorem mutate_no_change_returns_original_witness :
    mutate demoEntity [("age", Value.int 36)] =
      { value := demoEntity, saveCalled := false, returnedOriginal := true } :=
  mutate_no_change_returns_original demoEntity [("age", Value.int 36)] (by decide)
